import Mathlib

/-!
Verification of the naive-raytracer core against its specification.

The floating-point scalars of the source (f32 / f64) are idealised as real
numbers; machine-integer casts in the texture wrap function are modelled
exactly over Int/Nat with the 2^32 / 2^31 bounds written out.  The math
module (Vector3) is absent from src, only point.rs survives; its operations
are modelled from the spec (dot / cross / normalize / length plus the squared
length `norm` used by the spherical light).  Everything else is translated
from the source files: rendering.rs, scene/item/sphere.rs, scene/item/plane.rs,
scene/light/*.rs, scene/material.rs (wrap, Coloration) and color.rs.
-/

namespace NaiveRay

open scoped Classical

noncomputable section

/-- Modelled from the spec: 3D vector with three floating-point components
(the math module of the repository is missing from src). -/
structure Vector3 where
  x : ℝ
  y : ℝ
  z : ℝ
deriving DecidableEq

/-- Point from math/point.rs: three floating-point components. -/
structure Point where
  x : ℝ
  y : ℝ
  z : ℝ
deriving DecidableEq

/-- Modelled from the spec: dot product of two vectors. -/
def Vector3.dot (a b : Vector3) : ℝ :=
  a.x * b.x + a.y * b.y + a.z * b.z

/-- Modelled from the spec: squared length, the `norm` the spherical light
uses as its inverse-square denominator r2. -/
def Vector3.norm (a : Vector3) : ℝ :=
  a.dot a

/-- Modelled from the spec: euclidean length. -/
def Vector3.length (a : Vector3) : ℝ :=
  Real.sqrt (a.dot a)

/-- Modelled from the spec: scale each component to make a unit vector. -/
def Vector3.normalize (a : Vector3) : Vector3 :=
  ⟨a.x / a.length, a.y / a.length, a.z / a.length⟩

/-- Modelled from the spec: cross product. -/
def Vector3.cross (a b : Vector3) : Vector3 :=
  ⟨a.y * b.z - a.z * b.y, a.z * b.x - a.x * b.z, a.x * b.y - a.y * b.x⟩

instance : Neg Vector3 := ⟨fun a => ⟨-a.x, -a.y, -a.z⟩⟩

instance : Add Vector3 := ⟨fun a b => ⟨a.x + b.x, a.y + b.y, a.z + b.z⟩⟩

instance : Sub Vector3 := ⟨fun a b => ⟨a.x - b.x, a.y - b.y, a.z - b.z⟩⟩

instance : HMul Vector3 ℝ Vector3 := ⟨fun a s => ⟨a.x * s, a.y * s, a.z * s⟩⟩

@[simp] theorem Vector3.neg_x (a : Vector3) : (-a).x = -a.x := rfl

@[simp] theorem Vector3.neg_y (a : Vector3) : (-a).y = -a.y := rfl

@[simp] theorem Vector3.neg_z (a : Vector3) : (-a).z = -a.z := rfl

@[simp] theorem Vector3.add_x (a b : Vector3) : (a + b).x = a.x + b.x := rfl

@[simp] theorem Vector3.add_y (a b : Vector3) : (a + b).y = a.y + b.y := rfl

@[simp] theorem Vector3.add_z (a b : Vector3) : (a + b).z = a.z + b.z := rfl

@[simp] theorem Vector3.sub_x (a b : Vector3) : (a - b).x = a.x - b.x := rfl

@[simp] theorem Vector3.sub_y (a b : Vector3) : (a - b).y = a.y - b.y := rfl

@[simp] theorem Vector3.sub_z (a b : Vector3) : (a - b).z = a.z - b.z := rfl

@[simp] theorem Vector3.smul_x (a : Vector3) (s : ℝ) : (a * s).x = a.x * s := rfl

@[simp] theorem Vector3.smul_y (a : Vector3) (s : ℝ) : (a * s).y = a.y * s := rfl

@[simp] theorem Vector3.smul_z (a : Vector3) (s : ℝ) : (a * s).z = a.z * s := rfl

/-- Point minus Point gives a Vector3 (point.rs). -/
def Point.vsub (a b : Point) : Vector3 :=
  ⟨a.x - b.x, a.y - b.y, a.z - b.z⟩

instance : HSub Point Point Vector3 := ⟨Point.vsub⟩

/-- Point plus Vector3 gives a Point (point.rs). -/
instance : HAdd Point Vector3 Point := ⟨fun p v => ⟨p.x + v.x, p.y + v.y, p.z + v.z⟩⟩

/-- Point minus Vector3 gives a Point (point.rs). -/
instance : HSub Point Vector3 Point := ⟨fun p v => ⟨p.x - v.x, p.y - v.y, p.z - v.z⟩⟩

def Point.zero : Point := ⟨0, 0, 0⟩

@[simp] theorem Point.vsub_x (a b : Point) : (a - b).x = a.x - b.x := rfl

@[simp] theorem Point.vsub_y (a b : Point) : (a - b).y = a.y - b.y := rfl

@[simp] theorem Point.vsub_z (a b : Point) : (a - b).z = a.z - b.z := rfl

@[simp] theorem Point.addv_x (p : Point) (v : Vector3) : (p + v).x = p.x + v.x := rfl

@[simp] theorem Point.addv_y (p : Point) (v : Vector3) : (p + v).y = p.y + v.y := rfl

@[simp] theorem Point.addv_z (p : Point) (v : Vector3) : (p + v).z = p.z + v.z := rfl

/-- Color from color.rs: three floating-point channels. -/
structure Color where
  r : ℝ
  g : ℝ
  b : ℝ
deriving DecidableEq

namespace Color

/-- color.rs `black`: the zero color, also the `Default` used by `Sum`. -/
def black : Color := ⟨0, 0, 0⟩

instance : Add Color := ⟨fun a b => ⟨a.r + b.r, a.g + b.g, a.b + b.b⟩⟩

instance : HMul Color ℝ Color := ⟨fun c s => ⟨c.r * s, c.g * s, c.b * s⟩⟩

instance : HMul Color Color Color := ⟨fun a b => ⟨a.r * b.r, a.g * b.g, a.b * b.b⟩⟩

instance : HDiv Color ℝ Color := ⟨fun c s => ⟨c.r / s, c.g / s, c.b / s⟩⟩

@[simp] theorem add_r (a b : Color) : (a + b).r = a.r + b.r := rfl

@[simp] theorem add_g (a b : Color) : (a + b).g = a.g + b.g := rfl

@[simp] theorem add_b (a b : Color) : (a + b).b = a.b + b.b := rfl

@[simp] theorem smul_r (c : Color) (s : ℝ) : (c * s).r = c.r * s := rfl

@[simp] theorem smul_g (c : Color) (s : ℝ) : (c * s).g = c.g * s := rfl

@[simp] theorem smul_b (c : Color) (s : ℝ) : (c * s).b = c.b * s := rfl

@[simp] theorem mul_r (a b : Color) : (a * b).r = a.r * b.r := rfl

@[simp] theorem mul_g (a b : Color) : (a * b).g = a.g * b.g := rfl

@[simp] theorem mul_b (a b : Color) : (a * b).b = a.b * b.b := rfl

@[simp] theorem div_r (c : Color) (s : ℝ) : (c / s).r = c.r / s := rfl

@[simp] theorem div_g (c : Color) (s : ℝ) : (c / s).g = c.g / s := rfl

@[simp] theorem div_b (c : Color) (s : ℝ) : (c / s).b = c.b / s := rfl

/-- color.rs `Sum for Color`: fold of addition starting from the default
(zero) color. -/
def sum (l : List Color) : Color :=
  l.foldl (· + ·) black

/-- color.rs `clamp`: each channel passed through `.min(1.0).max(0.0)`. -/
def clamp (c : Color) : Color :=
  ⟨max (min c.r 1) 0, max (min c.g 1) 0, max (min c.b 1) 0⟩

end Color

/-! ## Texture wrap and coloration (scene/material.rs, color.rs) -/

/-- color.rs GAMMA constant. -/
def GAMMA : ℝ := 2.2

/-- color.rs `gamma_decode`: `encoded.powf(GAMMA)`. -/
def gamma_decode (encoded : ℝ) : ℝ := encoded ^ GAMMA

/-- One 8-bit RGBA texel, as the image collaborator hands it to the core. -/
structure Rgba8 where
  r : ℕ
  g : ℕ
  b : ℕ
  a : ℕ

/-- color.rs `from_rgba8`: each 8-bit channel divided by 255 and gamma
decoded into linear space. -/
def Color.from_rgba8 (p : Rgba8) : Color :=
  ⟨gamma_decode (p.r / 255), gamma_decode (p.g / 255), gamma_decode (p.b / 255)⟩

/-- Modelled from the spec: the decoded texture image, an addressable 2D
array of 8-bit texels with a width and a height (image decode is an external
collaborator; scene/material.rs stores an ImageBuffer). -/
structure TexImage where
  width : ℕ
  height : ℕ
  pixel : ℕ → ℕ → Rgba8

/-- scene/material.rs `Texture`: an image with offsets and a scale. -/
structure Texture where
  image : TexImage
  offset_x : ℝ
  offset_y : ℝ
  scale : ℝ

/-- scene/material.rs `TextureCoords`: a surface-local (u, v) pair. -/
structure TextureCoords where
  u : ℝ
  v : ℝ

/-- Truncation toward zero, the rounding of a float-to-int `as` cast. -/
def truncR (x : ℝ) : ℤ :=
  if 0 ≤ x then ⌊x⌋ else -⌊-x⌋

/-- Rust `f32 as i32`: truncate toward zero, saturating at the i32 bounds. -/
def f32_to_i32 (x : ℝ) : ℤ :=
  max (-(2 ^ 31)) (min (2 ^ 31 - 1) (truncR x))

/-- Rust `u32 as i32`: reinterpret modulo 2^32 into [-2^31, 2^31). -/
def u32_to_i32 (b : ℕ) : ℤ :=
  if b % 2 ^ 32 < 2 ^ 31 then ((b % 2 ^ 32 : ℕ) : ℤ)
  else ((b % 2 ^ 32 : ℕ) : ℤ) - 2 ^ 32

/-- Rust `i32 as u32`: reinterpret modulo 2^32 into [0, 2^32). -/
def i32_to_u32 (w : ℤ) : ℕ :=
  (w % 2 ^ 32).toNat

/-- Rust `%` on i32: none for the two panics (remainder by zero, and the
overflow of i32 MIN % -1, which Rust checks in every build profile);
otherwise the remainder with the sign of the dividend and magnitude
|a| mod |b|. -/
def rustRem (a b : ℤ) : Option ℤ :=
  if b = 0 ∨ (a = -(2 ^ 31) ∧ b = -1) then none
  else some (a.sign * ((a.natAbs % b.natAbs : ℕ) : ℤ))

/-- scene/material.rs `wrap`: scale the coordinate by the image dimension,
cast to i32, reduce with `%` by the dimension cast to i32, add the dimension
back when negative, and cast to u32; none when the `%` panics. -/
def wrap (val : ℝ) (bound : ℕ) : Option ℕ :=
  (rustRem (f32_to_i32 (val * bound)) (u32_to_i32 bound)).map fun wrapped_coord =>
    if wrapped_coord < 0 then i32_to_u32 (wrapped_coord + u32_to_i32 bound)
    else i32_to_u32 wrapped_coord

/-- scene/material.rs `Coloration`: a solid color or a texture. -/
inductive Coloration where
  | solid (c : Color)
  | texture (tex : Texture)

/-- scene/material.rs `Coloration::color`: solid returns the constant;
texture offsets and scales the coordinates, wraps them into the image and
decodes the texel.  The final arm stands for the panic the source would hit
when `wrap` panics (a zero image dimension or the MIN % -1 overflow). -/
def Coloration.colorAt : Coloration → TextureCoords → Color
  | .solid c, _ => c
  | .texture tex, tc =>
      match wrap ((tc.u + tex.offset_x) / tex.scale) tex.image.width,
          wrap ((tc.v + tex.offset_y) / tex.scale) tex.image.height with
      | some u, some v => Color.from_rgba8 (tex.image.pixel u v)
      | _, _ => Color.black

/-! ## Materials, items, lights and the scene
(scene/material.rs SurfaceType; the Material record with coloration, albedo
and surface that rendering.rs reads; scene/item/sphere.rs,
scene/item/plane.rs; scene/light/directional_light.rs,
scene/light/spherical_light.rs; scene/mod.rs Scene plus the light list of
scene.rs that rendering.rs iterates.) -/

/-- scene/material.rs `SurfaceType`. -/
inductive SurfaceType where
  | diffuse
  | reflective (reflectivity : ℝ)
  | refractive (index : ℝ) (transparency : ℝ)

/-- The material record rendering.rs reads: a coloration, an albedo and a
surface type (the struct of scene.rs plus `surface`, as matched by
`get_material().surface`, `.albedo` and `.color` in rendering.rs). -/
structure Material where
  color : Coloration
  albedo : ℝ
  surface : SurfaceType

/-- scene/item/sphere.rs `Sphere`. -/
structure Sphere where
  center : Point
  radius : ℝ
  material : Material

/-- scene/item/plane.rs `Plane`. -/
structure Plane where
  pos : Point
  normal : Vector3
  material : Material

/-- rendering.rs `Ray`: an origin and a direction. -/
structure Ray where
  origin : Point
  direction : Vector3

namespace Sphere

/-- sphere.rs: projection of the center-to-origin vector on the ray. -/
def osOnRay (s : Sphere) (ray : Ray) : ℝ :=
  (s.center - ray.origin).dot ray.direction

/-- sphere.rs: squared distance from the center to the ray. -/
def d2 (s : Sphere) (ray : Ray) : ℝ :=
  (s.center - ray.origin).dot (s.center - ray.origin) - s.osOnRay ray * s.osOnRay ray

/-- sphere.rs: squared radius. -/
def r2 (s : Sphere) : ℝ :=
  s.radius * s.radius

/-- sphere.rs: half-chord length sqrt(r2 - d2). -/
def iqLen (s : Sphere) (ray : Ray) : ℝ :=
  Real.sqrt (s.r2 - s.d2 ray)

/-- sphere.rs: the root -iq_len + os_on_ray. -/
def t0 (s : Sphere) (ray : Ray) : ℝ :=
  -s.iqLen ray + s.osOnRay ray

/-- sphere.rs: the root iq_len + os_on_ray. -/
def t1 (s : Sphere) (ray : Ray) : ℝ :=
  s.iqLen ray + s.osOnRay ray

/-- scene/item/sphere.rs `intersect`: no hit when the perpendicular
distance exceeds the radius or both roots are negative, else the nearest
non-negative root. -/
def intersect (s : Sphere) (ray : Ray) : Option ℝ :=
  if s.d2 ray > s.r2 then none
  else if s.t0 ray < 0 ∧ s.t1 ray < 0 then none
  else if s.t0 ray < 0 then some (s.t1 ray)
  else if s.t1 ray < 0 then some (s.t0 ray)
  else some (min (s.t0 ray) (s.t1 ray))

/-- scene/item/sphere.rs `surface_normal`. -/
def surface_normal (s : Sphere) (hit_point : Point) : Vector3 :=
  (hit_point - s.center).normalize

end Sphere

/-- f64 `atan2(y, x)` of the standard library, modelled piecewise with the
usual quadrant corrections and axis values. -/
def atan2 (y x : ℝ) : ℝ :=
  if 0 < x then Real.arctan (y / x)
  else if x < 0 then
    (if 0 ≤ y then Real.arctan (y / x) + Real.pi else Real.arctan (y / x) - Real.pi)
  else
    (if 0 < y then Real.pi / 2 else if y < 0 then -(Real.pi / 2) else 0)

/-- scene/item/sphere.rs `texture_coords`: u from the azimuth via atan2, v
from the polar angle via arccos(y/r). -/
def Sphere.texture_coords (s : Sphere) (hit_point : Point) : TextureCoords :=
  let p := hit_point - s.center
  let phi := atan2 p.z p.x
  let theta := Real.arccos (p.y / s.radius)
  ⟨(1 + phi) / Real.pi * 0.5, theta / Real.pi⟩

namespace Plane

/-- scene/item/plane.rs `intersect`: front-facing (denom above a small
epsilon) and non-negative distance. -/
def intersect (pl : Plane) (ray : Ray) : Option ℝ :=
  if pl.normal.dot ray.direction > 1e-6 then
    if (pl.pos - ray.origin).dot pl.normal / pl.normal.dot ray.direction ≥ 0 then
      some ((pl.pos - ray.origin).dot pl.normal / pl.normal.dot ray.direction)
    else none
  else none

/-- scene/item/plane.rs `surface_normal`: the negated stored normal. -/
def surface_normal (pl : Plane) (_hit_point : Point) : Vector3 :=
  -pl.normal

/-- scene/item/plane.rs `texture_coords`: project the hit offset on a basis
built by crossing the normal with the z axis (or the y axis when that is
degenerate). -/
def texture_coords (pl : Plane) (hit_point : Point) : TextureCoords :=
  let x_axis0 := pl.normal.cross ⟨0, 0, 1⟩
  let x_axis := if x_axis0.length = 0 then pl.normal.cross ⟨0, 1, 0⟩ else x_axis0
  let y_axis := pl.normal.cross x_axis
  let p : Vector3 := hit_point - pl.pos
  ⟨p.dot x_axis, p.dot y_axis⟩

end Plane

/-- The closed set of scene items implementing Intersectable. -/
inductive Item where
  | sphere (s : Sphere)
  | plane (pl : Plane)

/-- Intersectable dispatch: `intersect`. -/
def Item.intersect : Item → Ray → Option ℝ
  | .sphere s, ray => s.intersect ray
  | .plane pl, ray => pl.intersect ray

/-- Intersectable dispatch: `surface_normal`. -/
def Item.surface_normal : Item → Point → Vector3
  | .sphere s, hp => s.surface_normal hp
  | .plane pl, hp => pl.surface_normal hp

/-- Intersectable dispatch: `texture_coords`. -/
def Item.texture_coords : Item → Point → TextureCoords
  | .sphere s, hp => s.texture_coords hp
  | .plane pl, hp => pl.texture_coords hp

/-- Intersectable dispatch: `get_material`. -/
def Item.get_material : Item → Material
  | .sphere s => s.material
  | .plane pl => pl.material

/-- The closed set of lights implementing the Light capability. -/
inductive Light where
  | directional (direction : Vector3) (color : Color) (intensity : ℝ)
  | spherical (position : Point) (color : Color) (intensity : ℝ)

/-- Light dispatch: `intensity`; the spherical light falls off by the
inverse-square law scaled by 4π (spherical_light.rs). -/
def Light.intensity : Light → Point → ℝ
  | .directional _ _ i, _ => i
  | .spherical p _ i, hp => i / ((p - hp).norm * 4 * Real.pi)

/-- Light dispatch: `distance`; infinite for the directional light
(directional_light.rs returns f64 INFINITY, modelled as the top element). -/
def Light.distance : Light → Point → WithTop ℝ
  | .directional _ _ _, _ => ⊤
  | .spherical p _ _, hp => ((p - hp).length : ℝ)

/-- Light dispatch: `color`. -/
def Light.color : Light → Color
  | .directional _ c _ => c
  | .spherical _ c _ => c

/-- Light dispatch: `direction_from`: negated stored direction, or the
normalized vector toward the spherical light. -/
def Light.direction_from : Light → Point → Vector3
  | .directional d _ _, _ => -d
  | .spherical p _ _, hp => (p - hp).normalize

/-- The scene rendering.rs reads: image size, field of view, items and
lights (scene/mod.rs plus the light list its shader iterates). -/
structure Scene where
  width : ℕ
  height : ℕ
  fov : ℝ
  items : List Item
  lights : List Light

/-- rendering.rs `Intersection`: a hit distance and the hit item. -/
structure Intersection where
  distance : ℝ
  item : Item

/-- rendering.rs SHADOW_BIAS. -/
def SHADOW_BIAS : ℝ := 1e-12

/-- rendering.rs MAX_RECURSION. -/
def MAX_RECURSION : ℕ := 25

/-- The hit records `trace` folds over: every item mapped through its
`intersect` and paired with itself (the filter_map of rendering.rs). -/
def hitRecords (scene : Scene) (ray : Ray) : List Intersection :=
  scene.items.filterMap fun i => (i.intersect ray).map fun d => ⟨d, i⟩

/-- One step of Rust `Iterator::min_by` with `partial_cmp` on the distance:
keep the accumulated record unless a strictly smaller distance arrives (so
the first of equally minimal records wins; on real distances the
`partial_cmp` unwrap cannot fail). -/
def minStep (acc : Option Intersection) (i : Intersection) : Option Intersection :=
  match acc with
  | none => some i
  | some j => if i.distance < j.distance then some i else some j

/-- Rust `Iterator::min_by` on the hit records: the fold of minStep. -/
def minByDistance (l : List Intersection) : Option Intersection :=
  l.foldl minStep none

/-- rendering.rs `trace`: filter_map of intersections, then min_by on the
distance. -/
def trace (scene : Scene) (ray : Ray) : Option Intersection :=
  minByDistance (hitRecords scene ray)

/-! ## Rays of the camera and of shading (rendering.rs) -/

/-- f64 `to_radians`. -/
def toRadians (deg : ℝ) : ℝ := deg * Real.pi / 180

/-- rendering.rs `Ray::new_prime`: pixel center to normalized device
coordinates, horizontal scaled by the aspect ratio, both axes by
tan(fov/2), vertical flipped, z fixed at -1, then normalized.  The source
asserts width > height before this computation. -/
def Ray.new_prime (x y : ℕ) (scene : Scene) : Ray :=
  let aspect : ℝ := (scene.width : ℝ) / (scene.height : ℝ)
  let fov_adjustment := Real.tan (toRadians scene.fov / 2)
  let sensor_x := (((x : ℝ) + 0.5) / (scene.width : ℝ) * 2 - 1) * aspect * fov_adjustment
  let sensor_y := -((((y : ℝ) + 0.5) / (scene.height : ℝ)) * 2 - 1) * fov_adjustment
  ⟨Point.zero, Vector3.normalize ⟨sensor_x, sensor_y, -1⟩⟩

/-- rendering.rs `Ray::create_reflection`: origin offset along the normal
by the bias, direction `incident - normal * (2 * incident.dot(normal))`. -/
def Ray.create_reflection (normal incident : Vector3) (intersection : Point)
    (bias : ℝ) : Ray :=
  ⟨intersection + normal * bias, incident - normal * (2 * incident.dot normal)⟩

/-- rendering.rs `Ray::create_transmission`: pick the index ratio and the
oriented normal by the sign of incident·normal (negating the cosine on the
way out), then refract; none when the discriminant k is negative. -/
def Ray.create_transmission (normal incident : Vector3) (intersection : Point)
    (bias : ℝ) (index : ℝ) : Option Ray :=
  let i_n0 := incident.dot normal
  let eta : ℝ := if i_n0 > 0 then index else 1 / index
  let n : Vector3 := if i_n0 > 0 then -normal else normal
  let i_n : ℝ := if i_n0 > 0 then i_n0 else -i_n0
  let k := 1 - (1 - i_n * i_n) * eta * eta
  if k < 0 then none
  else some ⟨intersection + (-n) * bias,
    ((incident + n * i_n) * eta - n * Real.sqrt k).normalize⟩

/-! ## Fresnel (rendering.rs) -/

/-- rendering.rs `fresnel`, the sine of the transmission angle: the index
ratio (swapped by the sign of incident·normal) times
sqrt(max(1 - (incident·normal)^2, 0)). -/
def sinT (incident normal : Vector3) (index : ℝ) : ℝ :=
  let i_dot_n := incident.dot normal
  let eta_i : ℝ := if i_dot_n > 0 then index else 1
  let eta_t : ℝ := if i_dot_n > 0 then 1 else index
  eta_i / eta_t * Real.sqrt (max (1 - i_dot_n * i_dot_n) 0)

/-- rendering.rs `fresnel`: exactly 1 on total internal reflection, else
the average of the squared s- and p-polarized reflectances. -/
def fresnel (incident normal : Vector3) (index : ℝ) : ℝ :=
  let i_dot_n := incident.dot normal
  let eta_i : ℝ := if i_dot_n > 0 then index else 1
  let eta_t : ℝ := if i_dot_n > 0 then 1 else index
  let sin_t := sinT incident normal index
  if sin_t > 1 then 1
  else
    let cos_t := Real.sqrt (max (1 - sin_t * sin_t) 0)
    let cos_i := |cos_t|
    let r_s := (eta_t * cos_i - eta_i * cos_t) / (eta_t * cos_i + eta_i * cos_t)
    let r_p := (eta_i * cos_i - eta_t * cos_t) / (eta_i * cos_i + eta_t * cos_t)
    (r_s * r_s + r_p * r_p) / 2

/-! ## Shading (rendering.rs) -/

/-- rendering.rs `color_from_light`: light color times (intensity times the
cosine) when the bias-offset shadow ray toward the light reaches it (no hit,
or a hit farther than the light), zero otherwise. -/
def color_from_light (scene : Scene) (light : Light) (hit_point : Point)
    (surface_normal : Vector3) : Color :=
  let dir := light.direction_from hit_point
  let theta := surface_normal.dot dir
  let shadow_ray : Ray := ⟨hit_point + surface_normal * SHADOW_BIAS, dir⟩
  let shadow_intersection := trace scene shadow_ray
  let is_in_light : Prop :=
    match shadow_intersection with
    | none => True
    | some si => ((si.distance : ℝ) : WithTop ℝ) > light.distance hit_point
  light.color * (if is_in_light then light.intensity hit_point * theta else 0)

/-- rendering.rs `shader_diffuse`: the sum of the per-light contributions,
scaled by albedo and divided by π, times the coloration at the hit UV. -/
def shader_diffuse (scene : Scene) (item : Item) (hit_point : Point)
    (surface_normal : Vector3) : Color :=
  let uv := item.texture_coords hit_point
  let color := Color.sum (scene.lights.map fun light =>
    color_from_light scene light hit_point surface_normal)
    * item.get_material.albedo / Real.pi
  item.get_material.color.colorAt uv * color

/-! ## The recursive integrator (rendering.rs)
`cast_ray` checks the depth cap before tracing; `get_color` spawns its
reflection and transmission rays at depth + 1.  The measure below shrinks
along exactly those calls, which is the totality argument of the source:
every recursive entry raises the depth and the cap stops every path. -/

mutual

/-- rendering.rs `cast_ray`: black at or beyond MAX_RECURSION, else trace
and shade (black on a miss). -/
def cast_ray (scene : Scene) (ray : Ray) (depth : ℕ) : Color :=
  if MAX_RECURSION ≤ depth then Color.black
  else
    match trace scene ray with
    | some i => get_color scene ray i depth
    | none => Color.black
termination_by 2 * (MAX_RECURSION + 2 - depth)

/-- rendering.rs `get_color`: diffuse shading, reflective blend, or the
Fresnel-weighted refractive blend; the none arm of the transmission match
stands for the `expect` panic of the source and is proved unreachable. -/
def get_color (scene : Scene) (ray : Ray) (intersection : Intersection)
    (depth : ℕ) : Color :=
  let hit_point := ray.origin + ray.direction * intersection.distance
  let surface_normal := intersection.item.surface_normal hit_point
  match intersection.item.get_material.surface with
  | .diffuse => shader_diffuse scene intersection.item hit_point surface_normal
  | .reflective reflectivity =>
      let color := shader_diffuse scene intersection.item hit_point surface_normal
      let reflection_ray :=
        Ray.create_reflection surface_normal ray.direction hit_point SHADOW_BIAS
      color * (1 - reflectivity) + cast_ray scene reflection_ray (depth + 1) * reflectivity
  | .refractive index transparency =>
      let uv := intersection.item.texture_coords hit_point
      let surface_color := intersection.item.get_material.color.colorAt uv
      let kr := fresnel ray.direction surface_normal index
      let refraction_color :=
        if kr < 1 then
          match Ray.create_transmission surface_normal ray.direction hit_point
              SHADOW_BIAS index with
          | some transmission_ray => cast_ray scene transmission_ray (depth + 1)
          | none => Color.black
        else Color.black
      let reflection_ray :=
        Ray.create_reflection surface_normal ray.direction hit_point SHADOW_BIAS
      let reflection_color := cast_ray scene reflection_ray (depth + 1)
      (reflection_color * kr + refraction_color * (1 - kr)) * transparency * surface_color
termination_by 2 * (MAX_RECURSION + 1 - depth) + 1

end

/-- rendering.rs `render`, one pixel: the clamped shaded color of the
nearest hit of the prime ray, or nothing (the transparent background
pixel).  This is the color the 8-bit conversion receives. -/
def renderPixelColor (scene : Scene) (x y : ℕ) : Option Color :=
  let ray := Ray.new_prime x y scene
  match trace scene ray with
  | some intersection => some ((get_color scene ray intersection 0).clamp)
  | none => none

/-! ## f32 min / max with NaN (color.rs clamp)
The channels of a Color are f32; `clamp` relies on `f32::min` / `f32::max`,
which return the other operand when one is NaN.  `Option ℝ` models an f32
here, `none` standing for NaN. -/

/-- Rust `f32::min`: the other argument when one is NaN. -/
def fmin : Option ℝ → Option ℝ → Option ℝ
  | none, b => b
  | some x, none => some x
  | some x, some y => some (min x y)

/-- Rust `f32::max`: the other argument when one is NaN. -/
def fmax : Option ℝ → Option ℝ → Option ℝ
  | none, b => b
  | some x, none => some x
  | some x, some y => some (max x y)

/-- A Color whose f32 channels may be NaN. -/
structure FColor where
  r : Option ℝ
  g : Option ℝ
  b : Option ℝ
deriving DecidableEq

/-- color.rs `clamp` on possibly-NaN channels: each channel through
`.min(1.0).max(0.0)`. -/
def FColor.clamp (c : FColor) : FColor :=
  ⟨fmax (fmin c.r (some 1)) (some 0),
   fmax (fmin c.g (some 1)) (some 0),
   fmax (fmin c.b (some 1)) (some 0)⟩

/-- A (possibly NaN) channel that is an actual number in [0, 1]. -/
def chanInUnit : Option ℝ → Prop
  | none => False
  | some x => 0 ≤ x ∧ x ≤ 1

/-- Every channel of a maybe-missing pixel color lies in [0, 1]. -/
def pixelInUnit : Option Color → Prop
  | none => True
  | some c => (0 ≤ c.r ∧ c.r ≤ 1) ∧ (0 ≤ c.g ∧ c.g ≤ 1) ∧ (0 ≤ c.b ∧ c.b ≤ 1)

theorem fclamp_chan_inUnit (o : Option ℝ) : chanInUnit (fmax (fmin o (some 1)) (some 0)) := by
  cases o with
  | none => simp [fmin, fmax, chanInUnit]
  | some x =>
      simp only [fmin, fmax, chanInUnit]
      constructor
      · exact le_max_right _ _
      · exact max_le (min_le_right _ _) zero_le_one

theorem fclamp_chan_fixed (o : Option ℝ) (h : chanInUnit o) :
    fmax (fmin o (some 1)) (some 0) = o := by
  cases o with
  | none => exact absurd h not_false
  | some x =>
      obtain ⟨h0, h1⟩ := h
      simp [fmin, fmax, min_eq_left h1, max_eq_left h0]

/-! ### Claim C2 -/

/-- Claim C2: for every scene, ray and depth at or beyond MAX_RECURSION
(25), cast_ray returns black; the definition of cast_ray / get_color above
is total by the decreasing measure on the depth, every recursive call being
spawned at depth + 1. -/
theorem cast_ray_depth_cap (scene : Scene) (ray : Ray) (depth : ℕ)
    (h : MAX_RECURSION ≤ depth) : cast_ray scene ray depth = Color.black := by
  unfold cast_ray
  simp [h]

/-- Witness for C2: at depth exactly 25 on a concrete scene the cap fires. -/
theorem cast_ray_depth_cap_witness :
    cast_ray ⟨2, 1, 90, [], []⟩ ⟨Point.zero, ⟨0, 0, -1⟩⟩ 25 = Color.black :=
  cast_ray_depth_cap _ _ 25 (by norm_num [MAX_RECURSION])

/-! ### Claim C10 -/

/-- Claim C10: clamp maps every channel, also negative, above-one or NaN
ones, into [0, 1] (a NaN channel to exactly 1), clamp is idempotent, and
the color render hands to the 8-bit pixel conversion has all channels in
[0, 1]. -/
theorem clamp_range_idempotent_render :
    (∀ c : FColor,
      (chanInUnit c.clamp.r ∧ chanInUnit c.clamp.g ∧ chanInUnit c.clamp.b)
      ∧ c.clamp.clamp = c.clamp)
    ∧ FColor.clamp ⟨none, none, none⟩ = ⟨some 1, some 1, some 1⟩
    ∧ ∀ scene x y, pixelInUnit (renderPixelColor scene x y) := by
  refine ⟨fun c => ⟨⟨fclamp_chan_inUnit _, fclamp_chan_inUnit _, fclamp_chan_inUnit _⟩, ?_⟩,
    ?_, fun scene x y => ?_⟩
  · show FColor.clamp _ = _
    unfold FColor.clamp
    rw [fclamp_chan_fixed _ (fclamp_chan_inUnit c.r),
      fclamp_chan_fixed _ (fclamp_chan_inUnit c.g),
      fclamp_chan_fixed _ (fclamp_chan_inUnit c.b)]
  · simp [FColor.clamp, fmin, fmax]
  · unfold renderPixelColor
    cases htr : trace scene (Ray.new_prime x y scene) with
    | none => simp [htr, pixelInUnit]
    | some i =>
        simp only [htr, pixelInUnit, Color.clamp]
        exact ⟨⟨le_max_right _ _, max_le (min_le_right _ _) zero_le_one⟩,
          ⟨le_max_right _ _, max_le (min_le_right _ _) zero_le_one⟩,
          ⟨le_max_right _ _, max_le (min_le_right _ _) zero_le_one⟩⟩

/-! ### Color algebra helpers -/

theorem Color.smul_one (c : Color) : c * (1 : ℝ) = c := by
  obtain ⟨r, g, b⟩ := c
  show Color.mk _ _ _ = _
  simp

theorem Color.black_smul (s : ℝ) : Color.black * s = Color.black := by
  show Color.mk _ _ _ = _
  simp [Color.black]

theorem Color.add_black (c : Color) : c + Color.black = c := by
  obtain ⟨r, g, b⟩ := c
  show Color.mk _ _ _ = _
  simp [Color.black]

/-! ### Total internal reflection: shared helper -/

/-- When the computed sine of the transmission angle exceeds 1, fresnel
takes its total-internal-reflection branch and returns exactly 1. -/
theorem fresnel_eq_one_of_sinT (incident normal : Vector3) (index : ℝ)
    (h : 1 < sinT incident normal index) : fresnel incident normal index = 1 := by
  unfold fresnel
  simp [h]

/-- The discriminant of the refraction formula is non-negative once the
index ratio is positive and ratio * sqrt(max(1 - c, 0)) is at most 1. -/
theorem refraction_k_nonneg (e c : ℝ) (he : 0 < e)
    (hs : e * Real.sqrt (max (1 - c) 0) ≤ 1) : 0 ≤ 1 - (1 - c) * e * e := by
  rcases le_or_lt (1 - c) 0 with h | h
  · have h1 : (1 - c) * e ≤ 0 := mul_nonpos_of_nonpos_of_nonneg h he.le
    have h2 : (1 - c) * e * e ≤ 0 := mul_nonpos_of_nonpos_of_nonneg h1 he.le
    linarith
  · rw [max_eq_left h.le] at hs
    have hsq : 0 ≤ e * Real.sqrt (1 - c) :=
      mul_nonneg he.le (Real.sqrt_nonneg _)
    have h2 := mul_self_le_mul_self hsq hs
    have hval : Real.sqrt (1 - c) * Real.sqrt (1 - c) = 1 - c :=
      Real.mul_self_sqrt h.le
    nlinarith

/-! ### Claim C3 -/

/-- Claim C3: whenever fresnel is below 1 (and the refractive index is
positive, the invariant of the data model), create_transmission returns a
ray: its discriminant k is non-negative, so the `expect` in the refractive
branch of get_color is unreachable and total internal reflection is never
signaled upward. -/
theorem create_transmission_isSome (normal incident : Vector3)
    (intersection : Point) (bias index : ℝ) (hidx : 0 < index)
    (hfr : fresnel incident normal index < 1) :
    (Ray.create_transmission normal incident intersection bias index).isSome := by
  have hs : sinT incident normal index ≤ 1 := by
    by_contra hgt
    push_neg at hgt
    rw [fresnel_eq_one_of_sinT _ _ _ hgt] at hfr
    exact lt_irrefl 1 hfr
  unfold Ray.create_transmission
  by_cases hpos : incident.dot normal > 0
  · have hsin : index * Real.sqrt (max (1 - incident.dot normal * incident.dot normal) 0) ≤ 1 := by
      unfold sinT at hs
      simpa [hpos] using hs
    have hk := refraction_k_nonneg index (incident.dot normal * incident.dot normal) hidx hsin
    simp only [hpos, if_true, reduceIte]
    rw [if_neg (by linarith)]
    rfl
  · have hinv : (0 : ℝ) < 1 / index := by positivity
    have hsin : (1 / index) * Real.sqrt (max (1 - incident.dot normal * incident.dot normal) 0) ≤ 1 := by
      unfold sinT at hs
      simpa [hpos] using hs
    have hk := refraction_k_nonneg (1 / index)
      (incident.dot normal * incident.dot normal) hinv hsin
    simp only [hpos, if_false, reduceIte]
    rw [if_neg (by nlinarith)]
    rfl

/-- Witness for C3: a concrete oblique entry into glass of index 5/3 whose
fresnel reflectance is 1/16, and the transmission ray exists. -/
theorem create_transmission_isSome_witness :
    (0 : ℝ) < 5 / 3 ∧ fresnel ⟨0, 1, 0⟩ ⟨1, 0, 0⟩ (5 / 3) < 1 ∧
      (Ray.create_transmission ⟨1, 0, 0⟩ ⟨0, 1, 0⟩ Point.zero 0 (5 / 3)).isSome := by
  have hd : Vector3.dot ⟨0, 1, 0⟩ ⟨1, 0, 0⟩ = 0 := by
    simp [Vector3.dot]
  have hst : sinT ⟨0, 1, 0⟩ ⟨1, 0, 0⟩ (5 / 3) = 3 / 5 := by
    unfold sinT
    rw [hd]
    norm_num [max_def, Real.sqrt_one]
  have h16 : Real.sqrt 16 = 4 := by
    rw [show (16 : ℝ) = 4 ^ 2 by norm_num]
    exact Real.sqrt_sq (by norm_num)
  have h25 : Real.sqrt 25 = 5 := by
    rw [show (25 : ℝ) = 5 ^ 2 by norm_num]
    exact Real.sqrt_sq (by norm_num)
  have habs : |(4 : ℝ) / 5| = 4 / 5 := abs_of_pos (by norm_num)
  have hfr : fresnel ⟨0, 1, 0⟩ ⟨1, 0, 0⟩ (5 / 3) < 1 := by
    unfold fresnel
    rw [hd, hst]
    norm_num [h16, h25, habs]
  exact ⟨by norm_num, hfr,
    create_transmission_isSome ⟨1, 0, 0⟩ ⟨0, 1, 0⟩ Point.zero 0 (5 / 3) (by norm_num) hfr⟩

/-! ### Claim C6 -/

/-- Claim C6: whenever the computed sine of the transmission angle
(eta_i/eta_t times sqrt(max(1 - (incident.normal)^2, 0))) exceeds 1,
fresnel returns exactly 1; and then the refractive branch of get_color
evaluates no transmission ray: its output is the recursively traced
reflection alone, times transparency and the surface coloration. -/
theorem fresnel_tir_no_transmission :
    (∀ incident normal : Vector3, ∀ index : ℝ,
      1 < sinT incident normal index → fresnel incident normal index = 1)
    ∧ ∀ scene ray intersection depth, ∀ index transparency : ℝ,
        intersection.item.get_material.surface = SurfaceType.refractive index transparency →
        1 < sinT ray.direction
          (intersection.item.surface_normal
            (ray.origin + ray.direction * intersection.distance)) index →
        get_color scene ray intersection depth =
          cast_ray scene
            (Ray.create_reflection
              (intersection.item.surface_normal
                (ray.origin + ray.direction * intersection.distance))
              ray.direction (ray.origin + ray.direction * intersection.distance)
              SHADOW_BIAS)
            (depth + 1)
          * transparency
          * intersection.item.get_material.color.colorAt
              (intersection.item.texture_coords
                (ray.origin + ray.direction * intersection.distance)) := by
  refine ⟨fresnel_eq_one_of_sinT, ?_⟩
  intro scene ray intersection depth index transparency hsurf htir
  have hkr := fresnel_eq_one_of_sinT _ _ _ htir
  unfold get_color
  simp only [hsurf]
  rw [hkr]
  norm_num
  rw [Color.smul_one, Color.black_smul, Color.add_black]

/-- Witness for C6: a grazing exit from glass of index 2 (cosine 3/5 from
inside), whose transmission sine is 8/5, makes fresnel exactly 1. -/
theorem fresnel_tir_no_transmission_witness :
    fresnel ⟨3 / 5, 4 / 5, 0⟩ ⟨1, 0, 0⟩ 2 = 1 := by
  have hd : Vector3.dot ⟨3 / 5, 4 / 5, 0⟩ ⟨1, 0, 0⟩ = 3 / 5 := by
    simp [Vector3.dot]
  have h16 : Real.sqrt 16 = 4 := by
    rw [show (16 : ℝ) = 4 ^ 2 by norm_num]
    exact Real.sqrt_sq (by norm_num)
  have h25 : Real.sqrt 25 = 5 := by
    rw [show (25 : ℝ) = 5 ^ 2 by norm_num]
    exact Real.sqrt_sq (by norm_num)
  have htir : 1 < sinT ⟨3 / 5, 4 / 5, 0⟩ ⟨1, 0, 0⟩ 2 := by
    unfold sinT
    rw [hd]
    norm_num [max_def, h16, h25]
  exact fresnel_tir_no_transmission.1 _ _ _ htir

/-! ### Claim C7 -/

/-- A plain white diffuse material for concrete scenes. -/
def whiteMaterial : Material :=
  ⟨Coloration.solid ⟨1, 1, 1⟩, 1, SurfaceType.diffuse⟩

/-- The unit sphere at the origin with the white diffuse material. -/
def unitSphere : Sphere :=
  ⟨Point.zero, 1, whiteMaterial⟩

/-- Claim C7 fails on the code: at the on-sphere hit point (0,0,-1) of the
unit sphere (so |hit - center| = radius = 1) the u texture coordinate is
(1 - π/2)/(2π) < 0, outside the claimed [0,1].  The azimuth term of the
source divides (1 + phi) by π instead of adding phi/π, a slip against the
normalized-UV intent spelled out by the spec (v is normalized correctly). -/
theorem sphere_texture_coords_u_negative :
    ((⟨0, 0, -1⟩ : Point) - unitSphere.center).length = unitSphere.radius
    ∧ (unitSphere.texture_coords ⟨0, 0, -1⟩).u < 0 := by
  constructor
  · show Real.sqrt _ = _
    unfold unitSphere
    rw [show Vector3.dot (Point.mk 0 0 (-1) - Point.zero) (Point.mk 0 0 (-1) - Point.zero)
        = 1 by simp [Vector3.dot, Point.zero]]
    exact Real.sqrt_one
  · have hat : atan2 (-1 : ℝ) 0 = -(Real.pi / 2) := by
      unfold atan2
      norm_num
    have hpz : ((⟨0, 0, -1⟩ : Point) - Point.zero).z = -1 := by
      simp [Point.zero]
    have hpx : ((⟨0, 0, -1⟩ : Point) - Point.zero).x = 0 := by
      simp [Point.zero]
    show (1 + atan2 ((⟨0, 0, -1⟩ : Point) - Point.zero).z
        ((⟨0, 0, -1⟩ : Point) - Point.zero).x) / Real.pi * 0.5 < 0
    rw [hpz, hpx, hat]
    have hnum : 1 + -(Real.pi / 2) < 0 := by
      linarith [Real.pi_gt_three]
    have hdiv : (1 + -(Real.pi / 2)) / Real.pi < 0 :=
      div_neg_of_neg_of_pos hnum Real.pi_pos
    exact mul_neg_of_neg_of_pos hdiv (by norm_num)

/-! ### Claim C8: the wrap function -/

theorem rustRem_natAbs_lt (a b w : ℤ) (h : rustRem a b = some w) :
    w.natAbs < b.natAbs := by
  unfold rustRem at h
  split_ifs at h with hp
  push_neg at hp
  obtain rfl := Option.some.inj h
  rw [Int.natAbs_mul]
  have hbpos : 0 < b.natAbs := Int.natAbs_pos.mpr hp.1
  by_cases ha : a = 0
  · simpa [ha] using hbpos
  · rw [Int.natAbs_sign_of_nonzero ha, one_mul, Int.natAbs_ofNat]
    exact Nat.mod_lt _ hbpos

theorem rustRem_nonneg_eq (a b : ℤ) (h0 : 0 ≤ a) (h : a.natAbs < b.natAbs)
    (hb : b ≠ 0) : rustRem a b = some a := by
  have hcond : ¬ (b = 0 ∨ (a = -(2 ^ 31) ∧ b = -1)) := by
    rintro (h1 | ⟨h2, h3⟩)
    · exact hb h1
    · rw [h2] at h0
      norm_num at h0
  unfold rustRem
  rw [if_neg hcond, Nat.mod_eq_of_lt h, Int.sign_mul_natAbs]

theorem i32_to_u32_of_nonneg (z : ℤ) (h0 : 0 ≤ z) (h1 : z < 2 ^ 32) :
    (i32_to_u32 z : ℤ) = z := by
  unfold i32_to_u32
  rw [Int.emod_eq_of_lt h0 h1]
  exact Int.toNat_of_nonneg h0

theorem i32_to_u32_of_neg (z : ℤ) (h0 : -(2 ^ 32) ≤ z) (h1 : z < 0) :
    (i32_to_u32 z : ℤ) = z + 2 ^ 32 := by
  unfold i32_to_u32
  have hz : z % 2 ^ 32 = z + 2 ^ 32 := by omega
  rw [hz, Int.toNat_of_nonneg (by omega)]

theorem u32_to_i32_eq (b : ℕ) (hb32 : b < 2 ^ 32) :
    u32_to_i32 b = if b < 2 ^ 31 then (b : ℤ) else (b : ℤ) - 2 ^ 32 := by
  unfold u32_to_i32
  rw [Nat.mod_eq_of_lt hb32]

/-- Claim C8, amended: whenever wrap returns at all, the value lies in
[0, bound), for every real v and every bound in the u32 range with
0 < bound; wrap always returns when bound < 2^32 - 1 (the i32 divisor is
then neither 0 nor -1, so the `%` cannot panic); and for v in [0, 1) with
0 < bound ≤ 2^31 it returns exactly floor(v * bound).  The exclusions are
forced by the code: at bound = 0 the `%` divides by zero; at
bound = 2^32 - 1 (signed_bound = -1) an input whose saturating cast yields
the i32 minimum overflows MIN % -1; and beyond 2^31 the saturating
f32-to-i32 cast breaks the floor identity. -/
theorem wrap_spec (v : ℝ) (b : ℕ) (hb : 0 < b) (hb32 : b < 2 ^ 32) :
    (∀ r : ℕ, wrap v b = some r → r < b)
    ∧ (b < 2 ^ 32 - 1 → (wrap v b).isSome)
    ∧ (0 ≤ v → v < 1 → b ≤ 2 ^ 31 → wrap v b = some (Int.toNat ⌊v * (b : ℝ)⌋)) := by
  have hsbeq := u32_to_i32_eq b hb32
  have hsbval : (b < 2 ^ 31 ∧ u32_to_i32 b = (b : ℤ))
      ∨ (2 ^ 31 ≤ b ∧ u32_to_i32 b = (b : ℤ) - 2 ^ 32) := by
    rcases lt_or_ge b (2 ^ 31) with h | h
    · exact Or.inl ⟨h, by rw [hsbeq, if_pos h]⟩
    · exact Or.inr ⟨h, by rw [hsbeq, if_neg (by omega)]⟩
  have hsbne : u32_to_i32 b ≠ 0 := by
    rcases hsbval with ⟨h, he⟩ | ⟨h, he⟩ <;> rw [he] <;> omega
  refine ⟨?_, ?_, ?_⟩
  · intro r hr
    unfold wrap at hr
    cases hrem : rustRem (f32_to_i32 (v * (b : ℝ))) (u32_to_i32 b) with
    | none =>
        rw [hrem, Option.map_none'] at hr
        exact Option.noConfusion hr
    | some w =>
        rw [hrem, Option.map_some'] at hr
        have habs := rustRem_natAbs_lt _ _ _ hrem
        obtain rfl := Option.some.inj hr
        split_ifs with hneg
        · rcases hsbval with ⟨hblt, h1⟩ | ⟨hbge, h1⟩ <;> rw [h1] at habs ⊢
          · have hcast := i32_to_u32_of_nonneg (w + (b : ℤ)) (by omega) (by omega)
            omega
          · have hcast := i32_to_u32_of_neg (w + ((b : ℤ) - 2 ^ 32)) (by omega) (by omega)
            omega
        · rcases hsbval with ⟨hblt, h1⟩ | ⟨hbge, h1⟩ <;> rw [h1] at habs
          · have hcast := i32_to_u32_of_nonneg w (by omega) (by omega)
            omega
          · have hcast := i32_to_u32_of_nonneg w (by omega) (by omega)
            omega
  · intro hbtop
    unfold wrap
    cases hrem : rustRem (f32_to_i32 (v * (b : ℝ))) (u32_to_i32 b) with
    | none =>
        exfalso
        unfold rustRem at hrem
        split_ifs at hrem with hp
        rcases hp with hp0 | ⟨_, hpm1⟩
        · exact hsbne hp0
        · rcases hsbval with ⟨h, he⟩ | ⟨h, he⟩ <;> rw [he] at hpm1 <;> omega
    | some w =>
        simp
  · intro h0 h1 hb31
    have hbR : (0 : ℝ) < b := by exact_mod_cast hb
    have hfc0 : 0 ≤ v * (b : ℝ) := mul_nonneg h0 hbR.le
    have hfc1 : v * (b : ℝ) < b := mul_lt_of_lt_one_left hbR h1
    have hfl0 : 0 ≤ ⌊v * (b : ℝ)⌋ := Int.floor_nonneg.mpr hfc0
    have hfl1 : ⌊v * (b : ℝ)⌋ < (b : ℤ) := Int.floor_lt.mpr (by exact_mod_cast hfc1)
    have htr : truncR (v * (b : ℝ)) = ⌊v * (b : ℝ)⌋ := by
      unfold truncR
      rw [if_pos hfc0]
    have hsat : f32_to_i32 (v * (b : ℝ)) = ⌊v * (b : ℝ)⌋ := by
      unfold f32_to_i32
      rw [htr]
      omega
    have habsb : (u32_to_i32 b).natAbs = b := by
      rw [hsbeq]
      split_ifs with h <;> omega
    have hrem : rustRem (f32_to_i32 (v * (b : ℝ))) (u32_to_i32 b)
        = some ⌊v * (b : ℝ)⌋ := by
      rw [hsat]
      exact rustRem_nonneg_eq _ _ hfl0 (by omega) hsbne
    unfold wrap
    rw [hrem, Option.map_some', if_neg (by omega : ¬ ⌊v * (b : ℝ)⌋ < 0)]
    refine congrArg some ?_
    have hcast := i32_to_u32_of_nonneg ⌊v * (b : ℝ)⌋ hfl0 (by omega)
    omega

/-- Witness for C8: wrap of 1/2 into bound 4 returns, and returns exactly
floor(1/2 * 4) = 2. -/
theorem wrap_spec_witness :
    wrap (1 / 2 : ℝ) 4 = some (Int.toNat ⌊(1 / 2 : ℝ) * ((4 : ℕ) : ℝ)⌋)
    ∧ (wrap (1 / 2 : ℝ) 4).isSome := by
  have h := wrap_spec (1 / 2 : ℝ) 4 (by norm_num) (by norm_num)
  exact ⟨h.2.2 (by norm_num) (by norm_num) (by norm_num), h.2.1 (by norm_num)⟩

/-- Counterexample for C8 as stated: at bound = 0 wrap panics on the zero
divisor (so returns nothing in the empty interval [0, 0)); at
v = -1, bound = 2^32 - 1 the saturating cast yields the i32 minimum and
the `%` by signed_bound = -1 overflows, another panic inside the claimed
domain; and at v = 3/4, bound = 3 * 2^30 the saturating cast makes the
result 1073741823 instead of floor(v * bound) = 2415919104. -/
theorem wrap_claim_counterexample :
    wrap 0 0 = none
    ∧ wrap (-1 : ℝ) 4294967295 = none
    ∧ wrap (3 / 4 : ℝ) 3221225472
        ≠ some (Int.toNat ⌊(3 / 4 : ℝ) * ((3221225472 : ℕ) : ℝ)⌋) := by
  refine ⟨?_, ?_, ?_⟩
  · have h0 : u32_to_i32 0 = 0 := by
      unfold u32_to_i32
      norm_num
    unfold wrap
    rw [h0]
    rw [show rustRem (f32_to_i32 ((0 : ℝ) * ((0 : ℕ) : ℝ))) 0 = none from by
      unfold rustRem
      rw [if_pos (Or.inl rfl)]]
    rfl
  · have hu : u32_to_i32 4294967295 = -1 := by
      unfold u32_to_i32
      norm_num
    have hcast : (-1 : ℝ) * ((4294967295 : ℕ) : ℝ) = ((-4294967295 : ℤ) : ℝ) := by
      push_cast
      norm_num
    have htr : truncR ((-1 : ℝ) * ((4294967295 : ℕ) : ℝ)) = -4294967295 := by
      unfold truncR
      rw [if_neg (by rw [hcast]; exact_mod_cast (by norm_num : ¬ (0 : ℤ) ≤ -4294967295))]
      rw [show -((-1 : ℝ) * ((4294967295 : ℕ) : ℝ)) = ((4294967295 : ℤ) : ℝ) by
        push_cast
        norm_num]
      rw [Int.floor_intCast]
    have hsat : f32_to_i32 ((-1 : ℝ) * ((4294967295 : ℕ) : ℝ)) = -(2 ^ 31) := by
      unfold f32_to_i32
      rw [htr]
      omega
    unfold wrap
    rw [hu, hsat]
    rw [show rustRem (-(2 ^ 31) : ℤ) (-1) = none from by
      unfold rustRem
      rw [if_pos (Or.inr ⟨rfl, rfl⟩)]]
    rfl
  · have hprod : (3 / 4 : ℝ) * ((3221225472 : ℕ) : ℝ) = ((2415919104 : ℤ) : ℝ) := by
      push_cast
      norm_num
    have hfl : ⌊(3 / 4 : ℝ) * ((3221225472 : ℕ) : ℝ)⌋ = 2415919104 := by
      rw [hprod, Int.floor_intCast]
    have htr : truncR ((3 / 4 : ℝ) * ((3221225472 : ℕ) : ℝ)) = 2415919104 := by
      unfold truncR
      rw [if_pos (by rw [hprod]; norm_num), hfl]
    have hsat : f32_to_i32 ((3 / 4 : ℝ) * ((3221225472 : ℕ) : ℝ)) = 2147483647 := by
      unfold f32_to_i32
      rw [htr]
      omega
    have hu : u32_to_i32 3221225472 = -1073741824 := by
      unfold u32_to_i32
      norm_num
    have hr : rustRem 2147483647 (-1073741824) = some 1073741823 := by
      unfold rustRem
      rw [if_neg (by norm_num)]
      rw [show Int.sign 2147483647 = 1 from Int.sign_eq_one_iff_pos.mpr (by norm_num)]
      norm_num [Int.natAbs]
    unfold wrap
    rw [hsat, hu, hr, Option.map_some', if_neg (by norm_num : ¬ (1073741823 : ℤ) < 0), hfl]
    have hval : i32_to_u32 1073741823 = 1073741823 := by
      unfold i32_to_u32
      norm_num
      decide
    rw [hval]
    decide

/-! ### Unit-length helper lemmas -/

theorem Vector3.dot_self_nonneg (v : Vector3) : 0 ≤ v.dot v := by
  unfold Vector3.dot
  have hx := mul_self_nonneg v.x
  have hy := mul_self_nonneg v.y
  have hz := mul_self_nonneg v.z
  linarith

theorem Vector3.dot_self_eq_one_of_length (v : Vector3) (h : v.length = 1) :
    v.dot v = 1 := by
  have hmul : Real.sqrt (v.dot v) * Real.sqrt (v.dot v) = v.dot v :=
    Real.mul_self_sqrt (Vector3.dot_self_nonneg v)
  unfold Vector3.length at h
  rw [h] at hmul
  linarith

theorem Vector3.normalize_dot_self (v : Vector3) (h : 0 < v.dot v) :
    (v.normalize).dot v.normalize = 1 := by
  have hpos : 0 < Real.sqrt (v.dot v) := Real.sqrt_pos.mpr h
  have hmul : Real.sqrt (v.dot v) * Real.sqrt (v.dot v) = v.dot v :=
    Real.mul_self_sqrt h.le
  unfold Vector3.normalize Vector3.length
  unfold Vector3.dot at hpos hmul ⊢
  have hne : Real.sqrt (v.x * v.x + v.y * v.y + v.z * v.z) ≠ 0 := ne_of_gt hpos
  field_simp
  linarith [hmul]

theorem Vector3.normalize_length_one (v : Vector3) (h : 0 < v.dot v) :
    (v.normalize).length = 1 := by
  unfold Vector3.length
  rw [Vector3.normalize_dot_self v h, Real.sqrt_one]

theorem Vector3.neg_dot_self (v : Vector3) : (-v).dot (-v) = v.dot v := by
  unfold Vector3.dot
  simp only [Vector3.neg_x, Vector3.neg_y, Vector3.neg_z]
  ring

theorem Point.vsub_dot_pos (p q : Point) (h : p ≠ q) : 0 < (p - q).dot (p - q) := by
  rcases (Vector3.dot_self_nonneg (p - q)).lt_or_eq with hlt | heq
  · exact hlt
  · exfalso
    apply h
    have h0 : (p.x - q.x) * (p.x - q.x) + (p.y - q.y) * (p.y - q.y)
        + (p.z - q.z) * (p.z - q.z) = 0 := by
      have := heq.symm
      unfold Vector3.dot at this
      simpa using this
    obtain ⟨px, py, pz⟩ := p
    obtain ⟨qx, qy, qz⟩ := q
    simp only at h0
    have hx : px = qx := by nlinarith [sq_nonneg (px - qx), sq_nonneg (py - qy), sq_nonneg (pz - qz)]
    have hy : py = qy := by nlinarith [sq_nonneg (px - qx), sq_nonneg (py - qy), sq_nonneg (pz - qz)]
    have hz : pz = qz := by nlinarith [sq_nonneg (px - qx), sq_nonneg (py - qy), sq_nonneg (pz - qz)]
    rw [hx, hy, hz]

/-- The mirror direction of create_reflection keeps unit length. -/
theorem reflect_dot_self (I N : Vector3) (hi1 : I.dot I = 1) (hn1 : N.dot N = 1) :
    (I - N * (2 * I.dot N)).dot (I - N * (2 * I.dot N)) = 1 := by
  unfold Vector3.dot at hi1 hn1 ⊢
  simp only [Vector3.sub_x, Vector3.sub_y, Vector3.sub_z,
    Vector3.smul_x, Vector3.smul_y, Vector3.smul_z]
  linear_combination hi1 + (4 * (I.x * N.x + I.y * N.y + I.z * N.z) ^ 2) * hn1

/-- The refracted direction of create_transmission, in the shape of the
into branch, has unit length before the final normalize. -/
theorem refract_dot_self (I N : Vector3) (e S c k : ℝ)
    (hi1 : I.dot I = 1) (hn1 : N.dot N = 1) (hD : I.dot N = c)
    (hk : k = 1 - (1 - c * c) * e * e) (hS : S * S = k) :
    ((I + -N * c) * e - -N * S).dot ((I + -N * c) * e - -N * S) = 1 := by
  rw [hk] at hS
  rw [← hD] at hS ⊢
  unfold Vector3.dot at hi1 hn1 hS ⊢
  simp only [Vector3.sub_x, Vector3.sub_y, Vector3.sub_z, Vector3.add_x, Vector3.add_y,
    Vector3.add_z, Vector3.neg_x, Vector3.neg_y, Vector3.neg_z,
    Vector3.smul_x, Vector3.smul_y, Vector3.smul_z] at hS ⊢
  linear_combination (e ^ 2) * hi1
    + (e ^ 2 * (I.x * N.x + I.y * N.y + I.z * N.z) ^ 2
        - 2 * e * S * (I.x * N.x + I.y * N.y + I.z * N.z) + S ^ 2) * hn1
    + hS

/-- The refracted direction of create_transmission, in the shape of the
exit branch, has unit length before the final normalize. -/
theorem refract_dot_self_out (I N : Vector3) (e S c k : ℝ)
    (hi1 : I.dot I = 1) (hn1 : N.dot N = 1) (hD : I.dot N = c)
    (hk : k = 1 - (1 - -c * -c) * e * e) (hS : S * S = k) :
    ((I + N * -c) * e - N * S).dot ((I + N * -c) * e - N * S) = 1 := by
  rw [hk] at hS
  rw [← hD] at hS ⊢
  unfold Vector3.dot at hi1 hn1 hS ⊢
  simp only [Vector3.sub_x, Vector3.sub_y, Vector3.sub_z, Vector3.add_x, Vector3.add_y,
    Vector3.add_z, Vector3.neg_x, Vector3.neg_y, Vector3.neg_z,
    Vector3.smul_x, Vector3.smul_y, Vector3.smul_z] at hS ⊢
  linear_combination (e ^ 2) * hi1
    + ((I.x * N.x + I.y * N.y + I.z * N.z) ^ 2 * e ^ 2
        + 2 * (I.x * N.x + I.y * N.y + I.z * N.z) * e * S + S ^ 2) * hn1
    + hS

/-- A z = -1 camera-film vector always has positive squared length. -/
theorem Vector3.film_dot_pos (a b : ℝ) :
    0 < (Vector3.mk a b (-1)).dot ⟨a, b, -1⟩ := by
  show 0 < a * a + b * b + (-1 : ℝ) * (-1)
  nlinarith [mul_self_nonneg a, mul_self_nonneg b]

/-! ### Claim C9 -/

/-- Claim C9: every ray the renderer constructs has a unit direction:
new_prime normalizes a vector with z component -1 (never zero); the shadow
ray direction from a directional light is the negated stored unit vector,
from a spherical light a normalized offset (the light must not sit exactly
on the hit point); create_transmission normalizes its refracted direction;
and the reflection direction, although not normalized by the source, has
unit length whenever incident and normal do. -/
theorem renderer_rays_unit :
    (∀ x y : ℕ, ∀ scene : Scene, scene.height < scene.width →
      (Ray.new_prime x y scene).direction.length = 1)
    ∧ (∀ d : Vector3, ∀ c : Color, ∀ i : ℝ, ∀ hp : Point, d.length = 1 →
      ((Light.directional d c i).direction_from hp).length = 1)
    ∧ (∀ p : Point, ∀ c : Color, ∀ i : ℝ, ∀ hp : Point, p ≠ hp →
      ((Light.spherical p c i).direction_from hp).length = 1)
    ∧ (∀ normal incident : Vector3, ∀ p : Point, ∀ bias index : ℝ, ∀ r : Ray,
      incident.length = 1 → normal.length = 1 →
      Ray.create_transmission normal incident p bias index = some r →
      r.direction.length = 1)
    ∧ (∀ normal incident : Vector3, ∀ p : Point, ∀ bias : ℝ,
      incident.length = 1 → normal.length = 1 →
      (Ray.create_reflection normal incident p bias).direction.length = 1) := by
  refine ⟨?_, ?_, ?_, ?_, ?_⟩
  · intro x y scene hwh
    exact Vector3.normalize_length_one _ (Vector3.film_dot_pos _ _)
  · intro d c i hp hlen
    show (-d).length = 1
    unfold Vector3.length at hlen ⊢
    rw [Vector3.neg_dot_self]
    exact hlen
  · intro p c i hp hne
    exact Vector3.normalize_length_one _ (Point.vsub_dot_pos p hp hne)
  · intro normal incident p bias index r hi hn heq
    have hi1 := Vector3.dot_self_eq_one_of_length _ hi
    have hn1 := Vector3.dot_self_eq_one_of_length _ hn
    unfold Ray.create_transmission at heq
    by_cases hpos : incident.dot normal > 0
    · simp only [hpos, if_true] at heq
      by_cases hk : (1 - (1 - incident.dot normal * incident.dot normal) * index * index) < 0
      · rw [if_pos hk] at heq
        exact absurd heq (by simp)
      · rw [if_neg hk] at heq
        rw [← Option.some.inj heq]
        show (Vector3.normalize _).length = 1
        apply Vector3.normalize_length_one
        have hd := refract_dot_self incident normal index
          (Real.sqrt (1 - (1 - incident.dot normal * incident.dot normal) * index * index))
          (incident.dot normal)
          (1 - (1 - incident.dot normal * incident.dot normal) * index * index)
          hi1 hn1 rfl rfl (Real.mul_self_sqrt (by linarith))
        rw [hd]
        exact one_pos
    · simp only [hpos, if_false] at heq
      by_cases hk : (1 - (1 - -(incident.dot normal) * -(incident.dot normal))
          * (1 / index) * (1 / index)) < 0
      · rw [if_pos hk] at heq
        exact absurd heq (by simp)
      · rw [if_neg hk] at heq
        rw [← Option.some.inj heq]
        show (Vector3.normalize _).length = 1
        apply Vector3.normalize_length_one
        have hd := refract_dot_self_out incident normal (1 / index)
          (Real.sqrt (1 - (1 - -(incident.dot normal) * -(incident.dot normal))
            * (1 / index) * (1 / index)))
          (incident.dot normal)
          (1 - (1 - -(incident.dot normal) * -(incident.dot normal))
            * (1 / index) * (1 / index))
          hi1 hn1 rfl rfl (Real.mul_self_sqrt (by linarith))
        rw [hd]
        exact one_pos
  · intro normal incident p bias hi hn
    simp only [Ray.create_reflection]
    unfold Vector3.length
    rw [reflect_dot_self incident normal
      (Vector3.dot_self_eq_one_of_length _ hi) (Vector3.dot_self_eq_one_of_length _ hn)]
    exact Real.sqrt_one

/-- Witness for C9: each clause applied at a concrete input. -/
theorem renderer_rays_unit_witness :
    (Ray.new_prime 0 0 ⟨2, 1, 90, [], []⟩).direction.length = 1
    ∧ ((Light.directional ⟨0, 0, 1⟩ ⟨1, 1, 1⟩ 1).direction_from Point.zero).length = 1
    ∧ ((Light.spherical ⟨1, 0, 0⟩ ⟨1, 1, 1⟩ 1).direction_from Point.zero).length = 1
    ∧ Option.map (fun r => r.direction.length)
        (Ray.create_transmission ⟨1, 0, 0⟩ ⟨0, 1, 0⟩ Point.zero 0 (5 / 3)) = some 1
    ∧ (Ray.create_reflection ⟨1, 0, 0⟩ ⟨0, 1, 0⟩ Point.zero 0).direction.length = 1 := by
  have h001 : (Vector3.mk 0 0 1).length = 1 := by
    unfold Vector3.length Vector3.dot
    norm_num [Real.sqrt_one]
  have h100 : (Vector3.mk 1 0 0).length = 1 := by
    unfold Vector3.length Vector3.dot
    norm_num [Real.sqrt_one]
  have h010 : (Vector3.mk 0 1 0).length = 1 := by
    unfold Vector3.length Vector3.dot
    norm_num [Real.sqrt_one]
  refine ⟨renderer_rays_unit.1 0 0 ⟨2, 1, 90, [], []⟩ (by norm_num),
    renderer_rays_unit.2.1 _ _ _ _ h001,
    renderer_rays_unit.2.2.1 _ _ _ _ (by simp [Point.zero]),
    ?_,
    renderer_rays_unit.2.2.2.2 _ _ _ _ h010 h100⟩
  cases hopt : Ray.create_transmission ⟨1, 0, 0⟩ ⟨0, 1, 0⟩ Point.zero 0 (5 / 3) with
  | none =>
      exfalso
      unfold Ray.create_transmission at hopt
      rw [show Vector3.dot ⟨0, 1, 0⟩ ⟨1, 0, 0⟩ = 0 by simp [Vector3.dot]] at hopt
      norm_num at hopt
      exact Option.noConfusion hopt
  | some r =>
      have hu := renderer_rays_unit.2.2.2.1 _ _ _ _ _ r h010 h100 hopt
      simp [hu]

/-! ### Claim C5 -/

/-- Claim C5: sphere intersection returns none exactly when the squared
perpendicular distance exceeds the squared radius or both roots are
negative; any returned distance is the nearest non-negative root; a ray
from inside the sphere (t0 negative, t1 not) hits at t1. -/
theorem sphere_intersect_characterization (s : Sphere) (ray : Ray) :
    (s.intersect ray = none ↔ s.r2 < s.d2 ray ∨ (s.t0 ray < 0 ∧ s.t1 ray < 0))
    ∧ (∀ t : ℝ, s.intersect ray = some t →
        0 ≤ t ∧ (t = s.t0 ray ∨ t = s.t1 ray)
        ∧ (0 ≤ s.t0 ray → t ≤ s.t0 ray) ∧ (0 ≤ s.t1 ray → t ≤ s.t1 ray))
    ∧ (s.t0 ray < 0 → 0 ≤ s.t1 ray → s.intersect ray = some (s.t1 ray)) := by
  unfold Sphere.intersect
  split_ifs with h1 h2 h3 h4
  · refine ⟨iff_of_true rfl (Or.inl h1), fun t ht => by simp at ht, fun ht0 ht1 => ?_⟩
    exfalso
    have hiq : s.iqLen ray = 0 := by
      unfold Sphere.iqLen
      exact Real.sqrt_eq_zero_of_nonpos (by linarith)
    unfold Sphere.t0 at ht0
    unfold Sphere.t1 at ht1
    rw [hiq] at ht0 ht1
    linarith
  · exact ⟨iff_of_true rfl (Or.inr h2), fun t ht => by simp at ht,
      fun ht0 ht1 => absurd ht1 (not_le.mpr h2.2)⟩
  · push_neg at h2
    have ht1 : 0 ≤ s.t1 ray := h2 h3
    refine ⟨iff_of_false (by simp) (not_or.mpr ⟨h1, fun hc => absurd ht1 (not_le.mpr hc.2)⟩),
      ?_, fun _ _ => rfl⟩
    intro t ht
    obtain rfl := (Option.some.inj ht).symm
    exact ⟨ht1, Or.inr rfl, fun hc => absurd h3 (not_lt.mpr hc), fun _ => le_refl _⟩
  · push_neg at h3
    refine ⟨iff_of_false (by simp) (not_or.mpr ⟨h1, fun hc => absurd hc.1 (not_lt.mpr h3)⟩),
      ?_, fun hc _ => absurd hc (not_lt.mpr h3)⟩
    intro t ht
    obtain rfl := (Option.some.inj ht).symm
    exact ⟨h3, Or.inl rfl, fun _ => le_refl _, fun hc => absurd hc (not_le.mpr h4)⟩
  · push_neg at h3 h4
    refine ⟨iff_of_false (by simp) (not_or.mpr ⟨h1, fun hc => absurd hc.1 (not_lt.mpr h3)⟩),
      ?_, fun hc _ => absurd hc (not_lt.mpr h3)⟩
    intro t ht
    obtain rfl := (Option.some.inj ht).symm
    exact ⟨le_min h3 h4, (min_cases (s.t0 ray) (s.t1 ray)).imp (fun h => h.1) (fun h => h.1),
      fun _ => min_le_left _ _, fun _ => min_le_right _ _⟩

/-- A concrete sphere straight ahead of the concrete camera ray. -/
def sphereW : Sphere := ⟨⟨0, 0, -3⟩, 1, whiteMaterial⟩

/-- The concrete ray from the origin looking down the negative z axis. -/
def rayW : Ray := ⟨Point.zero, ⟨0, 0, -1⟩⟩

theorem sphereW_osOnRay : sphereW.osOnRay rayW = 3 := by
  unfold Sphere.osOnRay Vector3.dot
  norm_num [sphereW, rayW, Point.zero]

theorem sphereW_d2 : sphereW.d2 rayW = 0 := by
  unfold Sphere.d2
  rw [sphereW_osOnRay]
  unfold Vector3.dot
  norm_num [sphereW, rayW, Point.zero]

theorem sphereW_r2 : sphereW.r2 = 1 := by
  unfold Sphere.r2
  simp [sphereW]

theorem sphereW_iqLen : sphereW.iqLen rayW = 1 := by
  unfold Sphere.iqLen
  rw [sphereW_d2, sphereW_r2]
  norm_num [Real.sqrt_one]

theorem sphereW_t0 : sphereW.t0 rayW = 2 := by
  unfold Sphere.t0
  rw [sphereW_iqLen, sphereW_osOnRay]
  norm_num

theorem sphereW_t1 : sphereW.t1 rayW = 4 := by
  unfold Sphere.t1
  rw [sphereW_iqLen, sphereW_osOnRay]
  norm_num

/-- Witness for C5: the concrete sphere is hit (the none-characterization
rules a miss out, since d2 = 0 is at most r2 = 1 and t0 = 2, t1 = 4). -/
theorem sphere_intersect_characterization_witness :
    sphereW.intersect rayW ≠ none := by
  intro hnone
  rcases (sphere_intersect_characterization sphereW rayW).1.mp hnone with hlt | ⟨ht0, _⟩
  · rw [sphereW_d2, sphereW_r2] at hlt
    linarith
  · rw [sphereW_t0] at ht0
    linarith

/-! ### Claim C4: trace is a first-wins minimum -/

/-- The accumulator form of minStep on two concrete records. -/
def keepMin (j i : Intersection) : Intersection :=
  if i.distance < j.distance then i else j

theorem minStep_some (a x : Intersection) : minStep (some a) x = some (keepMin a x) := by
  show (if x.distance < a.distance then some x else some a)
      = some (if x.distance < a.distance then x else a)
  split_ifs <;> rfl

theorem foldl_minStep_some (l : List Intersection) (a : Intersection) :
    List.foldl minStep (some a) l = some (List.foldl keepMin a l) := by
  induction l generalizing a with
  | nil => rfl
  | cons x xs ih =>
      rw [List.foldl_cons, List.foldl_cons, minStep_some]
      exact ih _

theorem minByDistance_cons (x : Intersection) (xs : List Intersection) :
    minByDistance (x :: xs) = some (List.foldl keepMin x xs) := by
  unfold minByDistance
  rw [List.foldl_cons]
  exact foldl_minStep_some xs x

theorem keepMin_le_left (a x : Intersection) : (keepMin a x).distance ≤ a.distance := by
  unfold keepMin
  split_ifs with h
  · exact le_of_lt h
  · exact le_refl _

theorem keepMin_le_right (a x : Intersection) : (keepMin a x).distance ≤ x.distance := by
  unfold keepMin
  split_ifs with h
  · exact le_refl _
  · exact not_lt.mp h

theorem keepMin_cases (a x : Intersection) : keepMin a x = a ∨ keepMin a x = x := by
  unfold keepMin
  split_ifs
  · exact Or.inr rfl
  · exact Or.inl rfl

theorem foldl_keepMin_le (l : List Intersection) :
    ∀ a, ∀ k ∈ a :: l, (List.foldl keepMin a l).distance ≤ k.distance := by
  induction l with
  | nil =>
      intro a k hk
      rw [List.mem_singleton] at hk
      rw [hk]
      exact le_refl _
  | cons x xs ih =>
      intro a k hk
      rw [List.foldl_cons]
      rcases List.mem_cons.mp hk with hka | hk2
      · rw [hka]
        exact le_trans (ih (keepMin a x) _ (List.mem_cons_self _ _)) (keepMin_le_left a x)
      · rcases List.mem_cons.mp hk2 with hkx | hk3
        · rw [hkx]
          exact le_trans (ih (keepMin a x) _ (List.mem_cons_self _ _)) (keepMin_le_right a x)
        · exact ih (keepMin a x) k (List.mem_cons_of_mem _ hk3)

theorem foldl_keepMin_mem (l : List Intersection) :
    ∀ a, List.foldl keepMin a l ∈ a :: l := by
  induction l with
  | nil => intro a; simp
  | cons x xs ih =>
      intro a
      rw [List.foldl_cons]
      rcases List.mem_cons.mp (ih (keepMin a x)) with h | h
      · rcases keepMin_cases a x with h2 | h2 <;> rw [h, h2]
        · exact List.mem_cons_self _ _
        · exact List.mem_cons_of_mem _ (List.mem_cons_self _ _)
      · exact List.mem_cons_of_mem _ (List.mem_cons_of_mem _ h)

theorem foldl_keepMin_first (l : List Intersection) :
    ∀ a, ∃ n, (a :: l).get? n = some (List.foldl keepMin a l)
      ∧ ∀ m, m < n → ∀ j, (a :: l).get? m = some j →
          (List.foldl keepMin a l).distance < j.distance := by
  induction l with
  | nil =>
      intro a
      exact ⟨0, rfl, fun m hm j _ => absurd hm (Nat.not_lt_zero m)⟩
  | cons x xs ih =>
      intro a
      rw [List.foldl_cons]
      by_cases hc : x.distance < a.distance
      · have hk : keepMin a x = x := by
          unfold keepMin
          rw [if_pos hc]
        obtain ⟨n, hn, hlt⟩ := ih (keepMin a x)
        rw [hk] at hn hlt ⊢
        refine ⟨n + 1, by rw [List.get?_cons_succ]; exact hn, ?_⟩
        intro m hm j hj
        cases m with
        | zero =>
            rw [List.get?_cons_zero] at hj
            obtain rfl := Option.some.inj hj
            have h1 : (List.foldl keepMin x xs).distance ≤ x.distance :=
              foldl_keepMin_le xs x _ (List.mem_cons_self _ _)
            linarith
        | succ m2 =>
            rw [List.get?_cons_succ] at hj
            exact hlt m2 (by omega) j hj
      · have hk : keepMin a x = a := by
          unfold keepMin
          rw [if_neg hc]
        obtain ⟨n, hn, hlt⟩ := ih (keepMin a x)
        rw [hk] at hn hlt ⊢
        cases n with
        | zero =>
            rw [List.get?_cons_zero] at hn
            exact ⟨0, by rw [List.get?_cons_zero]; exact hn,
              fun m hm j _ => absurd hm (Nat.not_lt_zero m)⟩
        | succ n2 =>
            refine ⟨n2 + 2, ?_, ?_⟩
            · rw [List.get?_cons_succ, List.get?_cons_succ]
              rw [List.get?_cons_succ] at hn
              exact hn
            · intro m hm j hj
              match m with
              | 0 =>
                  rw [List.get?_cons_zero] at hj
                  obtain rfl := Option.some.inj hj
                  exact hlt 0 (by omega) a (by rw [List.get?_cons_zero])
              | 1 =>
                  rw [List.get?_cons_succ, List.get?_cons_zero] at hj
                  obtain rfl := Option.some.inj hj
                  have hra := hlt 0 (by omega) a (by rw [List.get?_cons_zero])
                  push_neg at hc
                  linarith
              | (m2 + 2) =>
                  rw [List.get?_cons_succ, List.get?_cons_succ] at hj
                  exact hlt (m2 + 1) (by omega) j (by rw [List.get?_cons_succ]; exact hj)

/-- Every distance an item reports is non-negative (sphere: nearest
non-negative root; plane: guarded by the sign test). -/
theorem Item.intersect_nonneg (it : Item) (ray : Ray) (d : ℝ)
    (h : it.intersect ray = some d) : 0 ≤ d := by
  cases it with
  | sphere s =>
      simp only [Item.intersect] at h
      unfold Sphere.intersect at h
      split_ifs at h with h1 h2 h3 h4
      · push_neg at h2
        obtain rfl := Option.some.inj h
        exact h2 h3
      · push_neg at h3
        obtain rfl := Option.some.inj h
        exact h3
      · push_neg at h3 h4
        obtain rfl := Option.some.inj h
        exact le_min h3 h4
  | plane pl =>
      simp only [Item.intersect] at h
      unfold Plane.intersect at h
      split_ifs at h with h1 h2
      obtain rfl := Option.some.inj h
      exact h2

theorem hitRecords_nonneg (scene : Scene) (ray : Ray) :
    ∀ k ∈ hitRecords scene ray, 0 ≤ k.distance := by
  intro k hk
  unfold hitRecords at hk
  obtain ⟨it, hit, hmap⟩ := List.mem_filterMap.mp hk
  obtain ⟨d, hd, hk2⟩ := Option.map_eq_some'.mp hmap
  rw [← hk2]
  exact Item.intersect_nonneg it ray d hd

/-- Claim C4: trace misses exactly when every item misses; a returned
intersection has a non-negative distance that is least among all hit
records, and it sits at an index before which every record is strictly
farther (exact ties resolve to the first item in iteration order). -/
theorem trace_characterization (scene : Scene) (ray : Ray) :
    (trace scene ray = none ↔ ∀ it ∈ scene.items, it.intersect ray = none)
    ∧ ∀ isect : Intersection, trace scene ray = some isect →
        0 ≤ isect.distance
        ∧ (∀ k ∈ hitRecords scene ray, isect.distance ≤ k.distance)
        ∧ ∃ n, (hitRecords scene ray).get? n = some isect
            ∧ ∀ m, m < n → ∀ j, (hitRecords scene ray).get? m = some j →
                isect.distance < j.distance := by
  constructor
  · unfold trace
    constructor
    · intro hnone it hit
      have hnil : hitRecords scene ray = [] := by
        cases hl : hitRecords scene ray with
        | nil => rfl
        | cons x xs =>
            rw [hl, minByDistance_cons] at hnone
            exact absurd hnone (by simp)
      unfold hitRecords at hnil
      have := List.filterMap_eq_nil.mp hnil it hit
      exact Option.map_eq_none'.mp this
    · intro hall
      have hnil : hitRecords scene ray = [] := by
        unfold hitRecords
        rw [List.filterMap_eq_nil]
        intro it hit
        rw [hall it hit]
        rfl
      rw [hnil]
      rfl
  · intro isect htr
    have htr2 : minByDistance (hitRecords scene ray) = some isect := htr
    cases hl : hitRecords scene ray with
    | nil =>
        rw [hl] at htr2
        exact absurd htr2 (by simp [minByDistance])
    | cons x xs =>
        rw [hl, minByDistance_cons] at htr2
        have heq := Option.some.inj htr2
        refine ⟨?_, ?_, ?_⟩
        · refine hitRecords_nonneg scene ray isect ?_
          rw [hl, ← heq]
          exact foldl_keepMin_mem xs x
        · intro k hk
          rw [← heq]
          exact foldl_keepMin_le xs x k hk
        · obtain ⟨n, hn, hlt⟩ := foldl_keepMin_first xs x
          rw [heq] at hn hlt
          exact ⟨n, hn, hlt⟩

/-- Witness for C4: tracing the concrete one-sphere scene with the concrete
ray is not a miss. -/
theorem trace_characterization_witness :
    trace ⟨2, 1, 90, [Item.sphere sphereW], []⟩ rayW ≠ none := by
  intro hnone
  have hall := (trace_characterization ⟨2, 1, 90, [Item.sphere sphereW], []⟩ rayW).1.mp hnone
  have hint := hall (Item.sphere sphereW) (by simp)
  simp only [Item.intersect] at hint
  unfold Sphere.intersect at hint
  rw [sphereW_d2, sphereW_r2, sphereW_t0, sphereW_t1] at hint
  norm_num at hint
  exact Option.noConfusion hint

/-! ### Claim C1: the diffuse shading formula -/

/-- A zero scalar annihilates a color componentwise. -/
theorem Color.smul_zero (c : Color) : c * (0 : ℝ) = Color.black := by
  show Color.mk _ _ _ = _
  simp [Color.black]

/-- Scalar division reassociates componentwise. -/
theorem Color.mul_div_assoc2 (c : Color) (a p : ℝ) : c * a / p = c * (a / p) := by
  obtain ⟨r, g, b⟩ := c
  show Color.mk _ _ _ = Color.mk _ _ _
  simp [mul_div_assoc]

/-- The per-light term in the words of the claim: light color times
(incident intensity times max(0, cos theta)), masked to zero when the
bias-offset shadow ray hits something at a distance not greater than the
distance of the light. -/
def specLightTermMax (scene : Scene) (light : Light) (hit_point : Point)
    (surface_normal : Vector3) : Color :=
  if ∃ si, trace scene ⟨hit_point + surface_normal * SHADOW_BIAS,
        light.direction_from hit_point⟩ = some si
      ∧ ((si.distance : ℝ) : WithTop ℝ) ≤ light.distance hit_point
  then Color.black
  else light.color * (light.intensity hit_point
    * max 0 (surface_normal.dot (light.direction_from hit_point)))

/-- The per-light term the code realises: the raw cosine, not clamped at
zero, under the same shadow mask. -/
def specLightTermRaw (scene : Scene) (light : Light) (hit_point : Point)
    (surface_normal : Vector3) : Color :=
  if ∃ si, trace scene ⟨hit_point + surface_normal * SHADOW_BIAS,
        light.direction_from hit_point⟩ = some si
      ∧ ((si.distance : ℝ) : WithTop ℝ) ≤ light.distance hit_point
  then Color.black
  else light.color * (light.intensity hit_point
    * surface_normal.dot (light.direction_from hit_point))

/-- The diffuse shading formula in the words of the claim: coloration at
the hit UV times (albedo / pi) times the sum of the max-clamped light
terms. -/
def specShaderDiffuse (scene : Scene) (item : Item) (hit_point : Point)
    (surface_normal : Vector3) : Color :=
  item.get_material.color.colorAt (item.texture_coords hit_point)
    * (Color.sum (scene.lights.map fun light =>
        specLightTermMax scene light hit_point surface_normal)
      * (item.get_material.albedo / Real.pi))

/-- The claim amended to the raw cosine the code uses. -/
def specShaderDiffuseRaw (scene : Scene) (item : Item) (hit_point : Point)
    (surface_normal : Vector3) : Color :=
  item.get_material.color.colorAt (item.texture_coords hit_point)
    * (Color.sum (scene.lights.map fun light =>
        specLightTermRaw scene light hit_point surface_normal)
      * (item.get_material.albedo / Real.pi))

theorem color_from_light_eq_raw (scene : Scene) (light : Light) (hit_point : Point)
    (surface_normal : Vector3) :
    color_from_light scene light hit_point surface_normal
      = specLightTermRaw scene light hit_point surface_normal := by
  simp only [color_from_light, specLightTermRaw]
  cases htr : trace scene ⟨hit_point + surface_normal * SHADOW_BIAS,
      light.direction_from hit_point⟩ with
  | none =>
      rw [if_pos trivial, if_neg]
      rintro ⟨si, h1, _⟩
      exact Option.noConfusion h1
  | some si =>
      by_cases hgt : ((si.distance : ℝ) : WithTop ℝ) > light.distance hit_point
      · rw [if_pos hgt, if_neg]
        rintro ⟨si2, h1, h2⟩
        obtain rfl := Option.some.inj h1
        exact absurd h2 (not_le.mpr hgt)
      · rw [if_neg hgt, if_pos ⟨si, rfl, not_lt.mp hgt⟩]
        exact Color.smul_zero _

/-- Claim C1, amended: shader_diffuse equals the claim formula with the
raw (possibly negative) cosine in place of max(0, cos theta). -/
theorem shader_diffuse_eq_raw_spec (scene : Scene) (item : Item) (hit_point : Point)
    (surface_normal : Vector3) :
    shader_diffuse scene item hit_point surface_normal
      = specShaderDiffuseRaw scene item hit_point surface_normal := by
  simp only [shader_diffuse, specShaderDiffuseRaw]
  rw [congrArg (fun f => List.map f scene.lights)
    (funext fun light => color_from_light_eq_raw scene light hit_point surface_normal)]
  rw [Color.mul_div_assoc2]

/-- The scene of the counterexample: no items, one directional light
shining along positive z (so it is behind a surface facing positive z). -/
def sceneC1 : Scene := ⟨2, 1, 90, [], [Light.directional ⟨0, 0, 1⟩ ⟨1, 1, 1⟩ 1]⟩

/-- Counterexample for C1 as stated: with the light behind the surface
(cos theta = -1) and nothing occluding, the code yields the negative
channel value -1/pi while the max-clamped claim formula yields black. -/
theorem shader_diffuse_claim_counterexample :
    shader_diffuse sceneC1 (Item.sphere unitSphere) Point.zero ⟨0, 0, 1⟩
      ≠ specShaderDiffuse sceneC1 (Item.sphere unitSphere) Point.zero ⟨0, 0, 1⟩ := by
  intro hcontra
  have htr : ∀ r : Ray, trace sceneC1 r = none := fun _ => rfl
  have hterm : color_from_light sceneC1 (Light.directional ⟨0, 0, 1⟩ ⟨1, 1, 1⟩ 1)
      Point.zero ⟨0, 0, 1⟩ = Color.mk (-1) (-1) (-1) := by
    simp only [color_from_light, htr, Light.direction_from, Light.intensity, Light.color]
    rw [if_pos trivial]
    show Color.mk _ _ _ = _
    unfold Vector3.dot
    norm_num
  have hspecterm : specLightTermMax sceneC1 (Light.directional ⟨0, 0, 1⟩ ⟨1, 1, 1⟩ 1)
      Point.zero ⟨0, 0, 1⟩ = Color.black := by
    simp only [specLightTermMax, htr]
    rw [if_neg]
    · rw [show max 0 (Vector3.dot ⟨0, 0, 1⟩ ((Light.directional ⟨0, 0, 1⟩ ⟨1, 1, 1⟩ 1).direction_from
          Point.zero)) = 0 by
        simp only [Light.direction_from]
        unfold Vector3.dot
        norm_num]
      rw [mul_zero, Color.smul_zero]
    · rintro ⟨si, h1, _⟩
      exact Option.noConfusion h1
  have hcode : shader_diffuse sceneC1 (Item.sphere unitSphere) Point.zero ⟨0, 0, 1⟩
      = Color.mk 1 1 1 * (Color.mk (-1) (-1) (-1) * (1 : ℝ) / Real.pi) := by
    simp only [shader_diffuse]
    rw [show sceneC1.lights = [Light.directional ⟨0, 0, 1⟩ ⟨1, 1, 1⟩ 1] from rfl,
      List.map_cons, List.map_nil, hterm]
    rw [show Color.sum [Color.mk (-1) (-1) (-1)] = Color.mk (-1) (-1) (-1) by
      show Color.black + _ = _
      show Color.mk _ _ _ = _
      simp [Color.black]]
    rw [show (Item.sphere unitSphere).get_material.color.colorAt
        ((Item.sphere unitSphere).texture_coords Point.zero) = Color.mk 1 1 1 from rfl]
    rw [show (Item.sphere unitSphere).get_material.albedo = 1 from rfl]
  have hspec : specShaderDiffuse sceneC1 (Item.sphere unitSphere) Point.zero ⟨0, 0, 1⟩
      = Color.mk 1 1 1 * (Color.black * ((1 : ℝ) / Real.pi)) := by
    simp only [specShaderDiffuse]
    rw [show sceneC1.lights = [Light.directional ⟨0, 0, 1⟩ ⟨1, 1, 1⟩ 1] from rfl,
      List.map_cons, List.map_nil, hspecterm]
    rw [show Color.sum [Color.black] = Color.black by
      show Color.black + _ = _
      show Color.mk _ _ _ = _
      simp [Color.black]]
    rw [show (Item.sphere unitSphere).get_material.color.colorAt
        ((Item.sphere unitSphere).texture_coords Point.zero) = Color.mk 1 1 1 from rfl]
    rw [show (Item.sphere unitSphere).get_material.albedo = 1 from rfl]
  rw [hcode, hspec] at hcontra
  have hr := congrArg Color.r hcontra
  simp only [Color.mul_r, Color.smul_r, Color.div_r,
    show Color.black.r = 0 from rfl, one_mul, mul_one, zero_mul, mul_zero] at hr
  rcases div_eq_zero_iff.mp hr with h | h
  · norm_num at h
  · exact Real.pi_ne_zero h

end

end NaiveRay
